import Mathlib

/-!
Verification of the Gorgo plugin orchestration core (pkg/gorgo/plugin.go and
internal/container) against its natural-language specification.

The Go code is shallowly embedded:
* Go maps used as registries (plugin registry, service container, config map)
  become association lists over `String` keys.  Go map *iteration order* is
  nondeterministic, so functions that iterate a map (`getSortedPlugins`)
  take the extracted slice as an explicit argument; quantifying over
  permutations of that slice covers all iteration orders.
* Go errors become the inductive `GoErr`; `fmt.Errorf` with a `%w` verb is
  `GoErr.wrap` of the formatted message around the inner error.
* A plugin's behaviour (what each lifecycle call returns) is a field of the
  `Plugin` structure; optional interfaces (type assertions in Go) are
  `Option`-valued fields, `none` meaning the assertion fails.
* Manager phases return a trace of the atomic actions they perform
  (`Action`) next to the Go return value, so ordering and abort behaviour
  are visible in the theorems.
* `sort.Slice` in Go is pdqsort, which for slices of length ≤ 12 is exactly
  insertion sort over the supplied comparator (swap the new element down
  while `less` holds); `goSortBy` implements that insertion sort.
-/

namespace Gorgo

/-- Go `error` values: either a leaf message (`fmt.Errorf` without `%w`) or a
message wrapping an inner error (`fmt.Errorf` with a trailing `: %w`). -/
inductive GoErr where
  | base (msg : String)
  | wrap (msg : String) (inner : GoErr)
deriving DecidableEq

/-- The rendered error text, as Go's `Error()` would produce it. -/
def GoErr.message : GoErr → String
  | .base m => m
  | .wrap m e => m ++ ": " ++ e.message

/-- First-match lookup in an association list (a Go map read `m[k]`). -/
def assocLookup {β : Type} : List (String × β) → String → Option β
  | [], _ => none
  | (k, v) :: rest, key => if k == key then some v else assocLookup rest key

/-- Go map write `m[k] = v`: replace the binding if the key is present,
otherwise append a new binding. -/
def assocSet {β : Type} : List (String × β) → String → β → List (String × β)
  | [], key, v => [(key, v)]
  | (k, w) :: rest, key, v =>
    if k == key then (key, v) :: rest else (k, w) :: assocSet rest key v

theorem assocLookup_assocSet_self {β : Type} (l : List (String × β))
    (key : String) (v : β) : assocLookup (assocSet l key v) key = some v := by
  induction l with
  | nil => simp [assocSet, assocLookup]
  | cons kv rest ih =>
    by_cases h : kv.1 == key
    · simp [assocSet, assocLookup, h]
    · simpa [assocSet, assocLookup, h] using ih

theorem assocLookup_assocSet_ne {β : Type} (l : List (String × β))
    (key k : String) (v : β) (hk : k ≠ key) :
    assocLookup (assocSet l key v) k = assocLookup l k := by
  induction l with
  | nil =>
    simp [assocSet, assocLookup]
    intro h
    exact absurd h.symm hk
  | cons kv rest ih =>
    by_cases h : kv.1 == key
    · have h1 : kv.1 = key := by simpa using h
      have : ¬ (key == k) = true := by
        simp
        intro hc
        exact hk hc.symm
      simp [assocSet, assocLookup, h, this, h1]
    · simp [assocSet, assocLookup, h]
      split <;> simp_all

theorem assocLookup_none_of_no_key {β : Type} (l : List (String × β))
    (key : String) (h : ∀ kv ∈ l, kv.1 ≠ key) : assocLookup l key = none := by
  induction l with
  | nil => rfl
  | cons kv rest ih =>
    have h1 := h kv (by simp)
    have : ¬ (kv.1 == key) = true := by simpa using h1
    simp only [assocLookup, this, if_false]
    exact ih fun x hx => h x (by simp [hx])

/-- Modelled from the spec: the Dependency Container (§4.1).  The source
file `internal/container/container.go` is not under `src/` (only its
tests are), so `Register` and `Get` are modelled from the spec's words: a
name-keyed registry of arbitrary service instances where `Register` stores
an instance under a name overwriting any prior entry with no error
condition, and `Get` returns the stored instance with a presence flag
(`none` here standing for Go's `(nil, false)`). -/
abbrev Container (α : Type) : Type := List (String × α)

def Container.empty {α : Type} : Container α := []

/-- Modelled from the spec: `Register(name, instance)` stores `instance`
under `name`, overwriting any prior entry; no error condition. -/
def Container.Register {α : Type} (c : Container α) (name : String) (inst : α) :
    Container α := assocSet c name inst

/-- Modelled from the spec: `Get(name)` returns the stored instance and a
presence flag; `none` is the absent case (`found = false`). -/
def Container.Get {α : Type} (c : Container α) (name : String) : Option α :=
  assocLookup c name

/-- An event (plugin.go `Event`); the Go `ctx` field is a cancellation
token the core never inspects, so it is omitted. -/
structure Event where
  name : String
  data : List (String × String)
deriving DecidableEq

/-- plugin.go `EventHandler`: `func(event *Event) error`. -/
abbrev EventHandler : Type := Event → Option GoErr

/-- The event bus subscription log: `Subscribe` appends, and the handler
slice for a name is the in-order sublist of the log for that name (Go keeps
`map[string][]EventHandler` with append, which preserves exactly this
per-name order). -/
abbrev EventBus : Type := List (String × EventHandler)

def EventBus.empty : EventBus := []

/-- plugin.go `EventBus.Subscribe`: appends the handler for the name. -/
def EventBus.Subscribe (bus : EventBus) (eventName : String)
    (handler : EventHandler) : EventBus := bus ++ [(eventName, handler)]

/-- The ordered handler slice `eb.subscribers[eventName]`. -/
def EventBus.handlersFor (bus : EventBus) (eventName : String) :
    List EventHandler :=
  (bus.filter fun s => s.1 == eventName).map fun s => s.2

/-- The loop body of plugin.go `EventBus.Publish`: run the handlers left to
right, stop on the first error, wrapping it as
`fmt.Errorf("event handler error for %s: %w", eventName, err)`.  Returns
the 0-based indices of the handlers invoked (offset by `i`), in invocation
order, next to the Go return value. -/
def publishFrom (e : Event) (i : Nat) : List EventHandler →
    List Nat × Option GoErr
  | [] => ([], none)
  | h :: rest =>
    match h e with
    | some err => ([i], some (.wrap ("event handler error for " ++ e.name) err))
    | none =>
      let r := publishFrom e (i + 1) rest
      (i :: r.1, r.2)

/-- plugin.go `EventBus.Publish`: snapshot the handler slice for the name,
build the event, and run the handlers in subscription order. -/
def EventBus.Publish (bus : EventBus) (eventName : String)
    (data : List (String × String)) : List Nat × Option GoErr :=
  publishFrom { name := eventName, data := data } 0
    (bus.handlersFor eventName)

theorem publishFrom_all_ok (e : Event) (hs : List EventHandler)
    (h : ∀ f ∈ hs, f e = none) :
    ∀ i, publishFrom e i hs = (List.range' i hs.length, none) := by
  induction hs with
  | nil => intro i; rfl
  | cons f rest ih =>
    intro i
    have hf : f e = none := h f (by simp)
    have hrest : ∀ g ∈ rest, g e = none := fun g hg => h g (by simp [hg])
    simp [publishFrom, hf, ih hrest (i + 1), List.range'_succ]

theorem publishFrom_first_err (e : Event) :
    ∀ (hs : List EventHandler) (k : Nat) (err : GoErr) (hk : k < hs.length),
    (∀ j (hj : j < k), hs.get ⟨j, lt_trans hj hk⟩ e = none) →
    hs.get ⟨k, hk⟩ e = some err →
    ∀ i, publishFrom e i hs =
      (List.range' i (k + 1),
       some (.wrap ("event handler error for " ++ e.name) err)) := by
  intro hs
  induction hs with
  | nil => intro k err hk; exact absurd hk (by simp)
  | cons f rest ih =>
    intro k err hk hbefore hatk i
    cases k with
    | zero =>
      have hf : f e = some err := hatk
      simp [publishFrom, hf, List.range'_succ]
    | succ k' =>
      have hf : f e = none := hbefore 0 (Nat.succ_pos k')
      have hk' : k' < rest.length := Nat.lt_of_succ_lt_succ hk
      have hbefore' : ∀ j (hj : j < k'),
          rest.get ⟨j, lt_trans hj hk'⟩ e = none := by
        intro j hj
        exact hbefore (j + 1) (Nat.succ_lt_succ hj)
      have hatk' : rest.get ⟨k', hk'⟩ e = some err := hatk
      simp [publishFrom, hf, ih k' err hk' hbefore' hatk' (i + 1),
        List.range'_succ]

/-- plugin.go `PluginState`.  Constructors stand for, in order:
`StateUninitialized`, `StateInitializing`, `StateInitialized`,
`StateStarting`, `StateRunning`, `StateStopping`, `StateStopped`,
`StateError`. -/
inductive PluginState where
  | uninit
  | initing
  | inited
  | starting
  | running
  | stopping
  | stopped
  | errored
deriving DecidableEq

/-- plugin.go `PluginMetadata`. -/
structure PluginMetadata where
  name : String
  version : String := ""
  description : String := ""
  author : String := ""
  dependencies : List String := []
  priority : Int := 50
  tags : List String := []
deriving DecidableEq

/-- A per-plugin configuration map (Go `map[string]interface{}`; values are
opaque to the manager, so they are embedded as strings). -/
abbrev Config : Type := List (String × String)

/-- The outcome of one invocation of each of the six `LifecycleHooks`
methods of a plugin, for the single call each receives per phase. -/
structure LifecycleHooks where
  onBeforeInit : Option GoErr := none
  onAfterInit : Option GoErr := none
  onBeforeStart : Option GoErr := none
  onAfterStart : Option GoErr := none
  onBeforeStop : Option GoErr := none
  onAfterStop : Option GoErr := none

/-- A plugin as the manager observes it: its metadata plus the behaviour of
every method the manager may call.  Optional capability interfaces
(Go type assertions such as `plugin.(ConfigurablePlugin)`) are `Option`
fields; `none` means the plugin does not implement the interface.
`runInit` is the plugin's `Initialize` result as a function of the resolved
config; `runStart`/`runStop` are the `Start`/`Stop` results (the context
argument is never inspected by the manager); `hotReloadable` packs
`CanHotReload()` with `OnHotReload`. -/
structure Plugin where
  metadata : PluginMetadata
  runInit : Config → Option GoErr := fun _ => none
  runStart : Option GoErr := none
  runStop : Option GoErr := none
  configurable : Option (Config → Option GoErr) := none
  hooks : Option LifecycleHooks := none
  services : Option (List (String × String)) := none
  subscriptions : Option (List (String × EventHandler)) := none
  hotReloadable : Option (Bool × (Config → Option GoErr)) := none

/-- plugin.go `BasePlugin`: metadata plus the mutable state field (the
mutex only serializes access and is not modelled). -/
structure BasePlugin where
  metadata : PluginMetadata
  state : PluginState

/-- plugin.go `BasePlugin.Initialize`: unconditionally sets the state to
`StateInitialized` and returns nil, ignoring container and config. -/
def BasePlugin.baseInit {α : Type} (p : BasePlugin) (_container : Container α)
    (_config : Config) : BasePlugin × Option GoErr :=
  ({ p with state := .inited }, none)

/-- plugin.go `BasePlugin.Start`: unconditionally sets `StateRunning`,
returns nil. -/
def BasePlugin.baseStart (p : BasePlugin) : BasePlugin × Option GoErr :=
  ({ p with state := .running }, none)

/-- plugin.go `BasePlugin.Stop`: unconditionally sets `StateStopped`,
returns nil. -/
def BasePlugin.baseStop (p : BasePlugin) : BasePlugin × Option GoErr :=
  ({ p with state := .stopped }, none)

/-- The comparator passed to `sort.Slice` in plugin.go `getSortedPlugins`:
first descending priority; at equal priority, `i` comes before `j` if `j`
declares `i`'s name among its dependencies. -/
def pluginMetaLess (a b : PluginMetadata) : Bool :=
  if a.priority ≠ b.priority then decide (b.priority < a.priority)
  else b.dependencies.contains a.name

def pluginLess (p q : Plugin) : Bool := pluginMetaLess p.metadata q.metadata

/-- One step of Go's insertion sort, on the reversed prefix: the new
element `x` walks down past the most recently placed elements while
`less x y` holds (`insertionSortCmpFunc` in Go's sort package; `sort.Slice`
is pdqsort, which runs exactly this insertion sort on every slice of
length ≤ 12). -/
def insRev {α : Type} (less : α → α → Bool) (x : α) : List α → List α
  | [] => [x]
  | y :: ys => if less x y then y :: insRev less x ys else x :: y :: ys

/-- Go's `sort.Slice` on slices up to the pdqsort insertion-sort cutoff:
fold the slice left to right, inserting each element into the reversed
sorted prefix, then restore left-to-right order. -/
def goSortBy {α : Type} (less : α → α → Bool) (l : List α) : List α :=
  (l.foldl (fun acc x => insRev less x acc) []).reverse

/-- plugin.go `getSortedPlugins`, applied to the slice extracted from the
`pm.plugins` map.  Go map iteration order is nondeterministic, so the
extraction order is the argument. -/
def getSortedPlugins (l : List Plugin) : List Plugin := goSortBy pluginLess l

theorem insRev_perm {α : Type} (less : α → α → Bool) (x : α) (l : List α) :
    (insRev less x l).Perm (x :: l) := by
  induction l with
  | nil => exact List.Perm.refl _
  | cons y ys ih =>
    cases h : less x y
    · simp only [insRev, h, Bool.false_eq_true, if_false]
      exact List.Perm.refl _
    · simp only [insRev, h, if_true]
      exact (ih.cons y).trans (List.Perm.swap x y ys)

theorem foldl_insRev_perm {α : Type} (less : α → α → Bool) :
    ∀ (l acc : List α),
    (l.foldl (fun acc x => insRev less x acc) acc).Perm (l.reverse ++ acc) := by
  intro l
  induction l with
  | nil => intro acc; simp
  | cons x xs ih =>
    intro acc
    simp only [List.foldl_cons, List.reverse_cons]
    have h1 := ih (insRev less x acc)
    have h2 : (xs.reverse ++ insRev less x acc).Perm
        (xs.reverse ++ (x :: acc)) :=
      (insRev_perm less x acc).append_left xs.reverse
    have h3 : xs.reverse ++ (x :: acc) = (xs.reverse ++ [x]) ++ acc := by
      simp
    rw [← h3]
    exact h1.trans h2

theorem goSortBy_perm {α : Type} (less : α → α → Bool) (l : List α) :
    (goSortBy less l).Perm l := by
  have h1 : (goSortBy less l).Perm
      (l.foldl (fun acc x => insRev less x acc) []) :=
    (l.foldl (fun acc x => insRev less x acc) []).reverse_perm
  have h2 := foldl_insRev_perm less l []
  have h3 : (l.reverse ++ []).Perm l := by
    simpa using l.reverse_perm
  exact (h1.trans h2).trans h3

theorem insRev_chain {α : Type} {less : α → α → Bool} {R : α → α → Prop}
    {x : α} : ∀ {acc : List α},
    (∀ y ∈ acc, less x y = false → R x y) →
    (∀ y ∈ acc, less x y = true → R y x) →
    List.Chain' R acc → List.Chain' R (insRev less x acc) := by
  intro acc
  induction acc with
  | nil => intro _ _ _; simp [insRev]
  | cons y ys ih =>
    intro hfalse htrue hch
    cases h : less x y
    · simp only [insRev, h, Bool.false_eq_true, if_false]
      exact List.chain'_cons.mpr ⟨hfalse y (by simp) h, hch⟩
    · simp only [insRev, h, if_true]
      cases ys with
      | nil =>
        simp only [insRev]
        exact List.chain'_cons.mpr ⟨htrue y (by simp) h, by simp⟩
      | cons z zs =>
        cases h2 : less x z
        · simp only [insRev, h2, Bool.false_eq_true, if_false]
          refine List.chain'_cons.mpr ⟨htrue y (by simp) h, ?_⟩
          refine List.chain'_cons.mpr ⟨hfalse z (by simp) h2, ?_⟩
          exact (List.chain'_cons.mp hch).2
        · have htail : List.Chain' R (insRev less x (z :: zs)) := by
            apply ih
            · intro w hw hlw
              exact hfalse w (by simp [hw]) hlw
            · intro w hw hlw
              exact htrue w (by simp [hw]) hlw
            · exact (List.chain'_cons.mp hch).2
          have hyz : R y z := (List.chain'_cons.mp hch).1
          simp only [insRev, h2, if_true] at htail ⊢
          exact List.chain'_cons.mpr ⟨hyz, htail⟩

theorem foldl_insRev_chain {α : Type} {less : α → α → Bool}
    {R : α → α → Prop} (S : List α)
    (hfalse : ∀ x ∈ S, ∀ y ∈ S, less x y = false → R x y)
    (htrue : ∀ x ∈ S, ∀ y ∈ S, less x y = true → R y x) :
    ∀ (l acc : List α), (∀ a ∈ l, a ∈ S) → (∀ a ∈ acc, a ∈ S) →
    List.Chain' R acc →
    List.Chain' R (l.foldl (fun acc x => insRev less x acc) acc) ∧
    (∀ a ∈ l.foldl (fun acc x => insRev less x acc) acc, a ∈ S) := by
  intro l
  induction l with
  | nil => intro acc _ hacc hch; exact ⟨hch, hacc⟩
  | cons x xs ih =>
    intro acc hl hacc hch
    have hxS : x ∈ S := hl x (by simp)
    have hmem : ∀ a ∈ insRev less x acc, a ∈ S := by
      intro a ha
      have := ((insRev_perm less x acc).mem_iff).mp ha
      rcases List.mem_cons.mp this with h | h
      · exact h ▸ hxS
      · exact hacc a h
    have hch' : List.Chain' R (insRev less x acc) := by
      apply insRev_chain
      · intro y hy hls
        exact hfalse x hxS y (hacc y hy) hls
      · intro y hy hls
        exact htrue x hxS y (hacc y hy) hls
      · exact hch
    exact ih (insRev less x acc) (fun a ha => hl a (by simp [ha])) hmem hch'

/-- Any output of the insertion sort satisfies, on adjacent elements taken
in output order, the negation of the comparator in the reversed direction,
provided the comparator is asymmetric on the input elements. -/
theorem goSortBy_chain {α : Type} {less : α → α → Bool} (l : List α)
    (hasym : ∀ a ∈ l, ∀ b ∈ l, less a b = true → less b a = false) :
    List.Chain' (fun a b => less b a = false) (goSortBy less l) := by
  have h := @foldl_insRev_chain _ less (fun a b => less a b = false) l
    (fun x _ y _ hxy => hxy) (fun x hx y hy hxy => hasym x hx y hy hxy)
    l [] (fun a ha => ha) (by simp) (by simp)
  have h2 : List.Chain' (fun a b => less a b = false)
      (l.foldl (fun acc x => insRev less x acc) []) := h.1
  unfold goSortBy
  rw [List.chain'_reverse]
  exact h2

/-- Unconditional variant for relations implied by both comparator
outcomes (used for the descending-priority invariant). -/
theorem goSortBy_chain_of_total {α : Type} {less : α → α → Bool}
    {R : α → α → Prop}
    (hfalse : ∀ x y : α, less x y = false → R x y)
    (htrue : ∀ x y : α, less x y = true → R y x) (l : List α) :
    List.Chain' (fun a b => R b a) (goSortBy less l) := by
  have h := @foldl_insRev_chain _ less R l
    (fun x _ y _ hxy => hfalse x y hxy) (fun x _ y _ hxy => htrue x y hxy)
    l [] (fun a ha => ha) (by simp) (by simp)
  unfold goSortBy
  rw [List.chain'_reverse]
  exact h.1

theorem pluginMetaLess_true_pri {a b : PluginMetadata}
    (h : pluginMetaLess a b = true) : b.priority ≤ a.priority := by
  unfold pluginMetaLess at h
  by_cases hp : a.priority = b.priority
  · exact le_of_eq hp.symm
  · simp only [hp, ne_eq, not_false_iff, if_true] at h
    exact le_of_lt (by simpa using h)

theorem pluginMetaLess_false_pri {a b : PluginMetadata}
    (h : pluginMetaLess a b = false) : a.priority ≤ b.priority := by
  unfold pluginMetaLess at h
  by_cases hp : a.priority = b.priority
  · exact le_of_eq hp
  · simp only [hp, ne_eq, not_false_iff, if_true] at h
    exact le_of_not_lt (by simpa using h)

/-- The sorted output always has non-increasing priorities, pairwise. -/
theorem getSortedPlugins_pri_pairwise (l : List Plugin) :
    (getSortedPlugins l).Pairwise
      (fun a b => b.metadata.priority ≤ a.metadata.priority) := by
  have hch := @goSortBy_chain_of_total Plugin pluginLess
    (fun a b => a.metadata.priority ≤ b.metadata.priority)
    (fun x y hxy => pluginMetaLess_false_pri hxy)
    (fun x y hxy => pluginMetaLess_true_pri hxy) l
  haveI htr : IsTrans Plugin
      (fun a b => b.metadata.priority ≤ a.metadata.priority) :=
    ⟨fun _ _ _ h1 h2 => le_trans h2 h1⟩
  exact List.chain'_iff_pairwise.mp hch

/-- One atomic action of a manager phase, recorded in the trace.  The first
field is always the plugin name the action belongs to.  `validate` is a
`ValidateConfig` call, `initAct` an `Initialize` call, `regSvc`/`subAct`
a service registration / event subscription, `startAct`/`stopAct` a
`Start`/`Stop` call, the `before…`/`after…` actions lifecycle hook calls,
and `pubStarted`/`pubStopped` the `plugin.started`/`plugin.stopped`
publication together with the `Publish` return value the Go code discards. -/
inductive Action where
  | validate (p : String)
  | beforeInit (p : String)
  | initAct (p : String)
  | regSvc (p svc : String)
  | subAct (p evName : String)
  | afterInit (p : String)
  | beforeStart (p : String)
  | startAct (p : String)
  | afterStart (p : String)
  | pubStarted (p : String) (result : Option GoErr)
  | beforeStop (p : String)
  | stopAct (p : String)
  | afterStop (p : String)
  | pubStopped (p : String) (result : Option GoErr)
deriving DecidableEq

/-- The plugin name an action belongs to. -/
def Action.plug : Action → String
  | .validate p => p
  | .beforeInit p => p
  | .initAct p => p
  | .regSvc p _ => p
  | .subAct p _ => p
  | .afterInit p => p
  | .beforeStart p => p
  | .startAct p => p
  | .afterStart p => p
  | .pubStarted p _ => p
  | .beforeStop p => p
  | .stopAct p => p
  | .afterStop p => p
  | .pubStopped p _ => p

/-- Sequence two trace-producing computations with Go's early-return on a
non-nil error: if the first errs its trace and error are the result,
otherwise the traces concatenate and the second decides the error. -/
def seqPR (a b : List Action × Option GoErr) : List Action × Option GoErr :=
  match a.2 with
  | some e => (a.1, some e)
  | none => (a.1 ++ b.1, b.2)

/-- A lifecycle hook call site: nothing happens when the plugin does not
implement `LifecycleHooks`; otherwise the hook runs and a non-nil result is
wrapped as `fmt.Errorf(msg ++ name ++ ": %w", err)`. -/
def runHook (mk : String → Action) (msg : String) (pname : String)
    (outcome : Option (Option GoErr)) : List Action × Option GoErr :=
  match outcome with
  | none => ([], none)
  | some none => ([mk pname], none)
  | some (some e) => ([mk pname], some (.wrap (msg ++ pname) e))

/-- Config resolution in `InitializePlugins`: `configs[metadata.Name]`,
replaced by an empty map when absent. -/
def resolveConfig (configs : List (String × Config)) (name : String) :
    Config := (assocLookup configs name).getD []

/-- The `ValidateConfig` call site of `InitializePlugins`. -/
def validatePart (p : Plugin) (cfg : Config) : List Action × Option GoErr :=
  match p.configurable with
  | none => ([], none)
  | some vc =>
    match vc cfg with
    | none => ([Action.validate p.metadata.name], none)
    | some e =>
      ([Action.validate p.metadata.name],
       some (.wrap ("config validation failed for plugin " ++
         p.metadata.name) e))

/-- The `Initialize` call site of `InitializePlugins`. -/
def initCall (p : Plugin) (cfg : Config) : List Action × Option GoErr :=
  match p.runInit cfg with
  | none => ([Action.initAct p.metadata.name], none)
  | some e =>
    ([Action.initAct p.metadata.name],
     some (.wrap ("initialization failed for plugin " ++ p.metadata.name) e))

/-- Service registration in `InitializePlugins` (no error condition). -/
def servicesPart (p : Plugin) : List Action × Option GoErr :=
  match p.services with
  | none => ([], none)
  | some svcs =>
    (svcs.map fun s => Action.regSvc p.metadata.name s.1, none)

/-- Event subscription in `InitializePlugins` (no error condition). -/
def subsPart (p : Plugin) : List Action × Option GoErr :=
  match p.subscriptions with
  | none => ([], none)
  | some subs =>
    (subs.map fun s => Action.subAct p.metadata.name s.1, none)

/-- The body of the `InitializePlugins` loop for one plugin: validate
config, `OnBeforeInit`, `Initialize`, register services, register event
subscriptions, `OnAfterInit`, stopping at the first error. -/
def initStep (configs : List (String × Config)) (p : Plugin) :
    List Action × Option GoErr :=
  seqPR (validatePart p (resolveConfig configs p.metadata.name))
    (seqPR (runHook Action.beforeInit "OnBeforeInit failed for plugin "
        p.metadata.name (p.hooks.map fun hk => hk.onBeforeInit))
      (seqPR (initCall p (resolveConfig configs p.metadata.name))
        (seqPR (servicesPart p)
          (seqPR (subsPart p)
            (runHook Action.afterInit "OnAfterInit failed for plugin "
              p.metadata.name (p.hooks.map fun hk => hk.onAfterInit))))))

/-- The `Start` call site of `StartPlugins`. -/
def startCall (p : Plugin) : List Action × Option GoErr :=
  match p.runStart with
  | none => ([Action.startAct p.metadata.name], none)
  | some e =>
    ([Action.startAct p.metadata.name],
     some (.wrap ("start failed for plugin " ++ p.metadata.name) e))

/-- The body of the `StartPlugins` loop for one plugin: `OnBeforeStart`,
`Start`, `OnAfterStart`, then publish `plugin.started` with the plugin
name as data.  The Go code does not check `Publish`'s return value: the
publish action records it, but it never becomes the step's error. -/
def startStep (bus : EventBus) (p : Plugin) : List Action × Option GoErr :=
  seqPR (runHook Action.beforeStart "OnBeforeStart failed for plugin "
      p.metadata.name (p.hooks.map fun hk => hk.onBeforeStart))
    (seqPR (startCall p)
      (seqPR (runHook Action.afterStart "OnAfterStart failed for plugin "
          p.metadata.name (p.hooks.map fun hk => hk.onAfterStart))
        ([Action.pubStarted p.metadata.name
            (bus.Publish "plugin.started"
              [("plugin", p.metadata.name)]).2], none)))

/-- The `Stop` call site of `StopPlugins`. -/
def stopCall (p : Plugin) : List Action × Option GoErr :=
  match p.runStop with
  | none => ([Action.stopAct p.metadata.name], none)
  | some e =>
    ([Action.stopAct p.metadata.name],
     some (.wrap ("stop failed for plugin " ++ p.metadata.name) e))

/-- The body of the `StopPlugins` loop for one plugin: `OnBeforeStop`,
`Stop`, `OnAfterStop`, then publish `plugin.stopped`.  As in
`StartPlugins`, the `Publish` return value is discarded. -/
def stopStep (bus : EventBus) (p : Plugin) : List Action × Option GoErr :=
  seqPR (runHook Action.beforeStop "OnBeforeStop failed for plugin "
      p.metadata.name (p.hooks.map fun hk => hk.onBeforeStop))
    (seqPR (stopCall p)
      (seqPR (runHook Action.afterStop "OnAfterStop failed for plugin "
          p.metadata.name (p.hooks.map fun hk => hk.onAfterStop))
        ([Action.pubStopped p.metadata.name
            (bus.Publish "plugin.stopped"
              [("plugin", p.metadata.name)]).2], none)))

/-- A manager phase loop: run the per-plugin step over the list in order,
returning that plugin's trace-so-far and error on the first failing step
(Go's `return fmt.Errorf(...)` out of the loop). -/
def runPhase (step : Plugin → List Action × Option GoErr) :
    List Plugin → List Action × Option GoErr
  | [] => ([], none)
  | p :: rest =>
    match (step p).2 with
    | some e => ((step p).1, some e)
    | none =>
      let r := runPhase step rest
      ((step p).1 ++ r.1, r.2)

/-- Concatenation of per-element traces. -/
def concatMap {α β : Type} (f : α → List β) : List α → List β
  | [] => []
  | a :: l => f a ++ concatMap f l

/-- plugin.go `PluginManager.InitializePlugins`: sort, then run the init
step per plugin in order. -/
def initPlugins (l : List Plugin) (configs : List (String × Config)) :
    List Action × Option GoErr :=
  runPhase (initStep configs) (getSortedPlugins l)

/-- plugin.go `PluginManager.StartPlugins`: sort, then run the start step
per plugin in order. -/
def startPlugins (l : List Plugin) (bus : EventBus) :
    List Action × Option GoErr :=
  runPhase (startStep bus) (getSortedPlugins l)

/-- plugin.go `PluginManager.StopPlugins`: sort, then run the stop step per
plugin iterating the sorted slice from the last index down to 0. -/
def stopPlugins (l : List Plugin) (bus : EventBus) :
    List Action × Option GoErr :=
  runPhase (stopStep bus) (getSortedPlugins l).reverse

/-- The plugin registry `pm.plugins` (a Go map), as an association list
with unique keys. -/
abbrev Registry : Type := List (String × Plugin)

/-- The dependency check loop of `RegisterPlugin`: the first declared
dependency name absent from the registry, if any. -/
def findMissingDep (reg : Registry) : List String → Option String
  | [] => none
  | d :: rest =>
    match assocLookup reg d with
    | none => some d
    | some _ => findMissingDep reg rest

/-- plugin.go `PluginManager.RegisterPlugin`: error
`"dependency %s not found for plugin %s"` on the first missing declared
dependency, otherwise store the plugin under its metadata name. -/
def registerPlugin (reg : Registry) (p : Plugin) : Except GoErr Registry :=
  match findMissingDep reg p.metadata.dependencies with
  | some d =>
    .error (.base ("dependency " ++ d ++ " not found for plugin " ++
      p.metadata.name))
  | none => .ok (assocSet reg p.metadata.name p)

/-- plugin.go `PluginManager.HotReloadPlugin`: not-found error for an
unregistered name; delegate to `OnHotReload` when the plugin implements
`HotReloadable` and `CanHotReload()` is true; otherwise the unsupported
error. -/
def hotReloadPlugin (reg : Registry) (name : String) (newConfig : Config) :
    Option GoErr :=
  match assocLookup reg name with
  | none => some (.base ("plugin " ++ name ++ " not found"))
  | some p =>
    match p.hotReloadable with
    | some hr =>
      if hr.1 then hr.2 newConfig
      else some (.base ("plugin " ++ name ++ " does not support hot reload"))
    | none => some (.base ("plugin " ++ name ++ " does not support hot reload"))

/-- `InitializePlugins` succeeds on a plugin exactly when its (optional)
`ValidateConfig` on the resolved config, its (optional)
`OnBeforeInit`/`OnAfterInit` hooks, and its `Initialize` all return nil. -/
def initOkCond (configs : List (String × Config)) (p : Plugin) : Prop :=
  (∀ vc, p.configurable = some vc →
    vc (resolveConfig configs p.metadata.name) = none) ∧
  (∀ hk, p.hooks = some hk → hk.onBeforeInit = none ∧ hk.onAfterInit = none) ∧
  p.runInit (resolveConfig configs p.metadata.name) = none

/-- `StartPlugins` succeeds on a plugin exactly when its (optional)
`OnBeforeStart`/`OnAfterStart` hooks and its `Start` return nil; the
`plugin.started` publication never contributes. -/
def startOkCond (p : Plugin) : Prop :=
  (∀ hk, p.hooks = some hk →
    hk.onBeforeStart = none ∧ hk.onAfterStart = none) ∧
  p.runStart = none

/-- `StopPlugins` succeeds on a plugin exactly when its (optional)
`OnBeforeStop`/`OnAfterStop` hooks and its `Stop` return nil; the
`plugin.stopped` publication never contributes. -/
def stopOkCond (p : Plugin) : Prop :=
  (∀ hk, p.hooks = some hk →
    hk.onBeforeStop = none ∧ hk.onAfterStop = none) ∧
  p.runStop = none

/-- The full action sequence `InitializePlugins` performs for one
succeeding plugin, in order. -/
def fullInitTrace (p : Plugin) : List Action :=
  (match p.configurable with
   | none => []
   | some _ => [Action.validate p.metadata.name]) ++
  (match p.hooks with
   | none => []
   | some _ => [Action.beforeInit p.metadata.name]) ++
  [Action.initAct p.metadata.name] ++
  (match p.services with
   | none => []
   | some svcs => svcs.map fun s => Action.regSvc p.metadata.name s.1) ++
  (match p.subscriptions with
   | none => []
   | some subs => subs.map fun s => Action.subAct p.metadata.name s.1) ++
  (match p.hooks with
   | none => []
   | some _ => [Action.afterInit p.metadata.name])

/-- The full action sequence `StartPlugins` performs for one succeeding
plugin, ending in the `plugin.started` publication whose result is
discarded. -/
def fullStartTrace (bus : EventBus) (p : Plugin) : List Action :=
  (match p.hooks with
   | none => []
   | some _ => [Action.beforeStart p.metadata.name]) ++
  [Action.startAct p.metadata.name] ++
  (match p.hooks with
   | none => []
   | some _ => [Action.afterStart p.metadata.name]) ++
  [Action.pubStarted p.metadata.name
    (bus.Publish "plugin.started" [("plugin", p.metadata.name)]).2]

/-- The full action sequence `StopPlugins` performs for one succeeding
plugin, ending in the `plugin.stopped` publication whose result is
discarded. -/
def fullStopTrace (bus : EventBus) (p : Plugin) : List Action :=
  (match p.hooks with
   | none => []
   | some _ => [Action.beforeStop p.metadata.name]) ++
  [Action.stopAct p.metadata.name] ++
  (match p.hooks with
   | none => []
   | some _ => [Action.afterStop p.metadata.name]) ++
  [Action.pubStopped p.metadata.name
    (bus.Publish "plugin.stopped" [("plugin", p.metadata.name)]).2]

theorem seqPR_none_iff (a b : List Action × Option GoErr) :
    (seqPR a b).2 = none ↔ a.2 = none ∧ b.2 = none := by
  rcases h : a.2 with _ | e <;> simp [seqPR, h]

theorem seqPR_of_none (a b : List Action × Option GoErr) (h : a.2 = none) :
    seqPR a b = (a.1 ++ b.1, b.2) := by
  simp [seqPR, h]

theorem seqPR_mem (a b : List Action × Option GoErr) (x : Action)
    (h : x ∈ (seqPR a b).1) : x ∈ a.1 ∨ x ∈ b.1 := by
  rcases h2 : a.2 with _ | e <;> simp [seqPR, h2] at h <;> tauto

theorem validatePart_none_iff (p : Plugin) (cfg : Config) :
    (validatePart p cfg).2 = none ↔
      ∀ vc, p.configurable = some vc → vc cfg = none := by
  rcases h : p.configurable with _ | vc
  · simp [validatePart, h]
  · rcases hv : vc cfg with _ | e <;> simp [validatePart, h, hv]

theorem hookSite_none_iff (mk : String → Action) (msg : String) (p : Plugin)
    (f : LifecycleHooks → Option GoErr) :
    (runHook mk msg p.metadata.name (p.hooks.map f)).2 = none ↔
      ∀ hk, p.hooks = some hk → f hk = none := by
  rcases h : p.hooks with _ | hk
  · simp [runHook, h]
  · rcases hv : f hk with _ | e <;> simp [runHook, h, hv]

theorem initCall_none_iff (p : Plugin) (cfg : Config) :
    (initCall p cfg).2 = none ↔ p.runInit cfg = none := by
  rcases h : p.runInit cfg with _ | e <;> simp [initCall, h]

theorem startCall_none_iff (p : Plugin) :
    (startCall p).2 = none ↔ p.runStart = none := by
  rcases h : p.runStart with _ | e <;> simp [startCall, h]

theorem stopCall_none_iff (p : Plugin) :
    (stopCall p).2 = none ↔ p.runStop = none := by
  rcases h : p.runStop with _ | e <;> simp [stopCall, h]

theorem servicesPart_snd (p : Plugin) : (servicesPart p).2 = none := by
  rcases h : p.services with _ | svcs <;> simp [servicesPart, h]

theorem subsPart_snd (p : Plugin) : (subsPart p).2 = none := by
  rcases h : p.subscriptions with _ | subs <;> simp [subsPart, h]

theorem initStep_none_iff (configs : List (String × Config)) (p : Plugin) :
    (initStep configs p).2 = none ↔ initOkCond configs p := by
  unfold initStep initOkCond
  rw [seqPR_none_iff, seqPR_none_iff, seqPR_none_iff, seqPR_none_iff,
    seqPR_none_iff, validatePart_none_iff, hookSite_none_iff,
    initCall_none_iff, hookSite_none_iff]
  simp only [servicesPart_snd, subsPart_snd, true_and]
  constructor
  · rintro ⟨h1, h2, h3, h4⟩
    exact ⟨h1, fun hk hh => ⟨h2 hk hh, h4 hk hh⟩, h3⟩
  · rintro ⟨h1, h2, h3⟩
    exact ⟨h1, fun hk hh => (h2 hk hh).1, h3, fun hk hh => (h2 hk hh).2⟩

theorem startStep_none_iff (bus : EventBus) (p : Plugin) :
    (startStep bus p).2 = none ↔ startOkCond p := by
  unfold startStep startOkCond
  rw [seqPR_none_iff, seqPR_none_iff, seqPR_none_iff, hookSite_none_iff,
    startCall_none_iff, hookSite_none_iff]
  constructor
  · rintro ⟨h1, h2, h3, _⟩
    exact ⟨fun hk hh => ⟨h1 hk hh, h3 hk hh⟩, h2⟩
  · rintro ⟨h1, h2⟩
    exact ⟨fun hk hh => (h1 hk hh).1, h2, fun hk hh => (h1 hk hh).2, rfl⟩

theorem stopStep_none_iff (bus : EventBus) (p : Plugin) :
    (stopStep bus p).2 = none ↔ stopOkCond p := by
  unfold stopStep stopOkCond
  rw [seqPR_none_iff, seqPR_none_iff, seqPR_none_iff, hookSite_none_iff,
    stopCall_none_iff, hookSite_none_iff]
  constructor
  · rintro ⟨h1, h2, h3, _⟩
    exact ⟨fun hk hh => ⟨h1 hk hh, h3 hk hh⟩, h2⟩
  · rintro ⟨h1, h2⟩
    exact ⟨fun hk hh => (h1 hk hh).1, h2, fun hk hh => (h1 hk hh).2, rfl⟩

theorem validatePart_of_ok (p : Plugin) (cfg : Config)
    (h : ∀ vc, p.configurable = some vc → vc cfg = none) :
    validatePart p cfg =
      ((match p.configurable with
        | none => []
        | some _ => [Action.validate p.metadata.name]), none) := by
  rcases hc : p.configurable with _ | vc
  · simp [validatePart, hc]
  · simp [validatePart, hc, h vc hc]

theorem hookSite_of_ok (mk : String → Action) (msg : String) (p : Plugin)
    (f : LifecycleHooks → Option GoErr)
    (h : ∀ hk, p.hooks = some hk → f hk = none) :
    runHook mk msg p.metadata.name (p.hooks.map f) =
      ((match p.hooks with
        | none => []
        | some _ => [mk p.metadata.name]), none) := by
  rcases hh : p.hooks with _ | hk
  · simp [runHook, hh]
  · simp [runHook, hh, h hk hh]

theorem servicesPart_eq (p : Plugin) :
    servicesPart p =
      ((match p.services with
        | none => []
        | some svcs => svcs.map fun s => Action.regSvc p.metadata.name s.1),
       none) := by
  rcases h : p.services with _ | svcs <;> simp [servicesPart, h]

theorem subsPart_eq (p : Plugin) :
    subsPart p =
      ((match p.subscriptions with
        | none => []
        | some subs => subs.map fun s => Action.subAct p.metadata.name s.1),
       none) := by
  rcases h : p.subscriptions with _ | subs <;> simp [subsPart, h]

theorem initStep_of_ok (configs : List (String × Config)) (p : Plugin)
    (h : initOkCond configs p) :
    initStep configs p = (fullInitTrace p, none) := by
  obtain ⟨h1, h2, h3⟩ := h
  rw [initStep, validatePart_of_ok p _ h1,
    hookSite_of_ok _ _ p _ (fun hk hh => (h2 hk hh).1),
    hookSite_of_ok _ _ p _ (fun hk hh => (h2 hk hh).2),
    servicesPart_eq, subsPart_eq]
  simp [seqPR, initCall, h3, fullInitTrace]

theorem startStep_of_ok (bus : EventBus) (p : Plugin) (h : startOkCond p) :
    startStep bus p = (fullStartTrace bus p, none) := by
  obtain ⟨h1, h2⟩ := h
  rw [startStep, hookSite_of_ok _ _ p _ (fun hk hh => (h1 hk hh).1),
    hookSite_of_ok _ _ p _ (fun hk hh => (h1 hk hh).2)]
  simp [seqPR, startCall, h2, fullStartTrace]

theorem stopStep_of_ok (bus : EventBus) (p : Plugin) (h : stopOkCond p) :
    stopStep bus p = (fullStopTrace bus p, none) := by
  obtain ⟨h1, h2⟩ := h
  rw [stopStep, hookSite_of_ok _ _ p _ (fun hk hh => (h1 hk hh).1),
    hookSite_of_ok _ _ p _ (fun hk hh => (h1 hk hh).2)]
  simp [seqPR, stopCall, h2, fullStopTrace]

theorem runPhase_none_iff (step : Plugin → List Action × Option GoErr) :
    ∀ ps : List Plugin,
    (runPhase step ps).2 = none ↔ ∀ p ∈ ps, (step p).2 = none := by
  intro ps
  induction ps with
  | nil => simp [runPhase]
  | cons p rest ih =>
    rcases h : (step p).2 with _ | e
    · simp [runPhase, h, ih]
    · simp [runPhase, h]

theorem runPhase_of_ok (step : Plugin → List Action × Option GoErr) :
    ∀ ps : List Plugin, (∀ p ∈ ps, (step p).2 = none) →
    runPhase step ps = (concatMap (fun p => (step p).1) ps, none) := by
  intro ps
  induction ps with
  | nil => intro _; rfl
  | cons p rest ih =>
    intro h
    have hp : (step p).2 = none := h p (by simp)
    have hrest := ih fun q hq => h q (by simp [hq])
    simp [runPhase, hp, hrest, concatMap]

theorem runPhase_err (step : Plugin → List Action × Option GoErr) :
    ∀ (ps : List Plugin) (e : GoErr), (runPhase step ps).2 = some e →
    ∃ pre p post, ps = pre ++ p :: post ∧
      (∀ q ∈ pre, (step q).2 = none) ∧ (step p).2 = some e ∧
      (runPhase step ps).1 =
        concatMap (fun q => (step q).1) pre ++ (step p).1 := by
  intro ps
  induction ps with
  | nil => intro e he; simp [runPhase] at he
  | cons p rest ih =>
    intro e he
    rcases h : (step p).2 with _ | e'
    · simp only [runPhase, h] at he ⊢
      obtain ⟨pre, q, post, hsplit, hpre, hq, htr⟩ := ih e he
      refine ⟨p :: pre, q, post, by simp [hsplit], ?_, hq, ?_⟩
      · intro r hr
        rcases List.mem_cons.mp hr with h1 | h1
        · exact h1 ▸ h
        · exact hpre r h1
      · simp [concatMap, htr]
    · simp only [runPhase, h] at he ⊢
      have : e' = e := by simpa using he
      subst this
      exact ⟨[], p, rest, rfl, by simp, h, by simp [concatMap]⟩

theorem concatMap_mem {α β : Type} (f : α → List β) :
    ∀ (l : List α) (b : β), b ∈ concatMap f l ↔ ∃ a ∈ l, b ∈ f a := by
  intro l
  induction l with
  | nil => simp [concatMap]
  | cons x xs ih => intro b; simp [concatMap, ih]

theorem validatePart_plug (p : Plugin) (cfg : Config) :
    ∀ a ∈ (validatePart p cfg).1, a.plug = p.metadata.name := by
  rcases hc : p.configurable with _ | vc
  · simp [validatePart, hc]
  · rcases hv : vc cfg with _ | e <;>
      simp [validatePart, hc, hv, Action.plug]

theorem runHook_plug (mk : String → Action) (msg : String) (n : String)
    (o : Option (Option GoErr)) (hmk : (mk n).plug = n) :
    ∀ a ∈ (runHook mk msg n o).1, a.plug = n := by
  rcases o with _ | e
  · simp [runHook]
  · rcases e with _ | e' <;> simp [runHook, hmk]

theorem initCall_plug (p : Plugin) (cfg : Config) :
    ∀ a ∈ (initCall p cfg).1, a.plug = p.metadata.name := by
  rcases h : p.runInit cfg with _ | e <;> simp [initCall, h, Action.plug]

theorem startCall_plug (p : Plugin) :
    ∀ a ∈ (startCall p).1, a.plug = p.metadata.name := by
  rcases h : p.runStart with _ | e <;> simp [startCall, h, Action.plug]

theorem stopCall_plug (p : Plugin) :
    ∀ a ∈ (stopCall p).1, a.plug = p.metadata.name := by
  rcases h : p.runStop with _ | e <;> simp [stopCall, h, Action.plug]

theorem servicesPart_plug (p : Plugin) :
    ∀ a ∈ (servicesPart p).1, a.plug = p.metadata.name := by
  rcases h : p.services with _ | svcs
  · simp [servicesPart, h]
  · intro a ha
    simp only [servicesPart, h] at ha
    obtain ⟨s, _, hs⟩ := List.mem_map.mp ha
    simp [← hs, Action.plug]

theorem subsPart_plug (p : Plugin) :
    ∀ a ∈ (subsPart p).1, a.plug = p.metadata.name := by
  rcases h : p.subscriptions with _ | subs
  · simp [subsPart, h]
  · intro a ha
    simp only [subsPart, h] at ha
    obtain ⟨s, _, hs⟩ := List.mem_map.mp ha
    simp [← hs, Action.plug]

theorem initStep_plug (configs : List (String × Config)) (p : Plugin) :
    ∀ a ∈ (initStep configs p).1, a.plug = p.metadata.name := by
  intro a ha
  unfold initStep at ha
  rcases seqPR_mem _ _ _ ha with h | h
  · exact validatePart_plug p _ a h
  rcases seqPR_mem _ _ _ h with h | h
  · exact runHook_plug _ _ _ _ rfl a h
  rcases seqPR_mem _ _ _ h with h | h
  · exact initCall_plug p _ a h
  rcases seqPR_mem _ _ _ h with h | h
  · exact servicesPart_plug p a h
  rcases seqPR_mem _ _ _ h with h | h
  · exact subsPart_plug p a h
  · exact runHook_plug _ _ _ _ rfl a h

theorem startStep_plug (bus : EventBus) (p : Plugin) :
    ∀ a ∈ (startStep bus p).1, a.plug = p.metadata.name := by
  intro a ha
  unfold startStep at ha
  rcases seqPR_mem _ _ _ ha with h | h
  · exact runHook_plug _ _ _ _ rfl a h
  rcases seqPR_mem _ _ _ h with h | h
  · exact startCall_plug p a h
  rcases seqPR_mem _ _ _ h with h | h
  · exact runHook_plug _ _ _ _ rfl a h
  · simp at h
    simp [h, Action.plug]

theorem stopStep_plug (bus : EventBus) (p : Plugin) :
    ∀ a ∈ (stopStep bus p).1, a.plug = p.metadata.name := by
  intro a ha
  unfold stopStep at ha
  rcases seqPR_mem _ _ _ ha with h | h
  · exact runHook_plug _ _ _ _ rfl a h
  rcases seqPR_mem _ _ _ h with h | h
  · exact stopCall_plug p a h
  rcases seqPR_mem _ _ _ h with h | h
  · exact runHook_plug _ _ _ _ rfl a h
  · simp at h
    simp [h, Action.plug]

/-- Fail-fast decomposition of a phase with the additional fact that no
action of a plugin strictly after the failing one appears in the trace
(names assumed unique, as they are for a slice extracted from the plugin
registry map). -/
theorem runPhase_err_names (step : Plugin → List Action × Option GoErr)
    (hplug : ∀ p, ∀ a ∈ (step p).1, a.plug = p.metadata.name)
    (ps : List Plugin) (hnd : (ps.map fun p => p.metadata.name).Nodup)
    (e : GoErr) (he : (runPhase step ps).2 = some e) :
    ∃ pre p post, ps = pre ++ p :: post ∧
      (∀ q ∈ pre, (step q).2 = none) ∧ (step p).2 = some e ∧
      (runPhase step ps).1 =
        concatMap (fun q => (step q).1) pre ++ (step p).1 ∧
      ∀ q ∈ post, ∀ a ∈ (runPhase step ps).1,
        a.plug ≠ q.metadata.name := by
  obtain ⟨pre, p, post, hsplit, hpre, hp, htr⟩ := runPhase_err step ps e he
  refine ⟨pre, p, post, hsplit, hpre, hp, htr, ?_⟩
  intro q hq a ha
  rw [htr] at ha
  have hnd' : ((pre.map fun r => r.metadata.name) ++
      (p.metadata.name :: (post.map fun r => r.metadata.name))).Nodup := by
    have : ps.map (fun r => r.metadata.name) =
        (pre.map fun r => r.metadata.name) ++
        (p.metadata.name :: (post.map fun r => r.metadata.name)) := by
      simp [hsplit]
    rw [this] at hnd
    exact hnd
  rcases List.mem_append.mp ha with h | h
  · obtain ⟨r, hr, har⟩ := (concatMap_mem _ pre a).mp h
    have hname : a.plug = r.metadata.name := hplug r a har
    have hdisj := List.disjoint_of_nodup_append hnd'
    have h1 : r.metadata.name ∈ pre.map fun r => r.metadata.name :=
      List.mem_map.mpr ⟨r, hr, rfl⟩
    have h2 : q.metadata.name ∈
        p.metadata.name :: (post.map fun r => r.metadata.name) := by
      simp only [List.mem_cons]
      exact Or.inr (List.mem_map.mpr ⟨q, hq, rfl⟩)
    intro hcontra
    have hrq : r.metadata.name = q.metadata.name := by rw [← hname, hcontra]
    exact hdisj h1 (by rw [hrq]; exact h2)
  · have hname : a.plug = p.metadata.name := hplug p a h
    have hpost : (p.metadata.name ::
        (post.map fun r => r.metadata.name)).Nodup := hnd'.of_append_right
    have hnp : p.metadata.name ∉ post.map fun r => r.metadata.name :=
      (List.nodup_cons.mp hpost).1
    intro hcontra
    have hpq : p.metadata.name = q.metadata.name := by rw [← hname, hcontra]
    exact hnp (by rw [hpq]; exact List.mem_map.mpr ⟨q, hq, rfl⟩)

theorem findMissingDep_none_iff (reg : Registry) :
    ∀ ds : List String, findMissingDep reg ds = none ↔
      ∀ d ∈ ds, (assocLookup reg d).isSome := by
  intro ds
  induction ds with
  | nil => simp [findMissingDep]
  | cons d rest ih =>
    rcases h : assocLookup reg d with _ | q
    · simp [findMissingDep, h]
    · simp [findMissingDep, h, ih]

theorem findMissingDep_some (reg : Registry) :
    ∀ (ds : List String) (d : String), findMissingDep reg ds = some d →
      d ∈ ds ∧ assocLookup reg d = none := by
  intro ds
  induction ds with
  | nil => intro d h; simp [findMissingDep] at h
  | cons d0 rest ih =>
    intro d h
    rcases h0 : assocLookup reg d0 with _ | q
    · simp only [findMissingDep, h0, Option.some_inj] at h
      have hd : d0 = d := by simpa using h
      subst hd
      exact ⟨by simp, h0⟩
    · simp [findMissingDep, h0] at h
      obtain ⟨h1, h2⟩ := ih d h
      exact ⟨by simp [h1], h2⟩

/-- Where a `StartPlugins` per-plugin error can come from, and its
wrapping: `OnBeforeStart`, `Start` or `OnAfterStart` — never from
publishing `plugin.started`. -/
theorem startStep_err_shape (bus : EventBus) (p : Plugin) (e : GoErr)
    (h : (startStep bus p).2 = some e) :
    (∃ hk e0, p.hooks = some hk ∧ hk.onBeforeStart = some e0 ∧
      e = .wrap ("OnBeforeStart failed for plugin " ++ p.metadata.name) e0) ∨
    (∃ e0, p.runStart = some e0 ∧
      e = .wrap ("start failed for plugin " ++ p.metadata.name) e0) ∨
    (∃ hk e0, p.hooks = some hk ∧ hk.onAfterStart = some e0 ∧
      e = .wrap ("OnAfterStart failed for plugin " ++ p.metadata.name) e0) := by
  unfold startStep at h
  rcases hh : p.hooks with _ | hk
  · rcases hs : p.runStart with _ | e0
    · simp [runHook, seqPR, startCall, hh, hs] at h
    · simp [runHook, seqPR, startCall, hh, hs] at h
      exact Or.inr (Or.inl ⟨e0, rfl, h.symm⟩)
  · rcases h1 : hk.onBeforeStart with _ | e0
    · rcases hs : p.runStart with _ | e1
      · rcases h2 : hk.onAfterStart with _ | e2
        · simp [runHook, seqPR, startCall, hh, h1, hs, h2] at h
        · simp [runHook, seqPR, startCall, hh, h1, hs, h2] at h
          exact Or.inr (Or.inr ⟨hk, e2, rfl, h2, h.symm⟩)
      · simp [runHook, seqPR, startCall, hh, h1, hs] at h
        exact Or.inr (Or.inl ⟨e1, rfl, h.symm⟩)
    · simp [runHook, seqPR, startCall, hh, h1] at h
      exact Or.inl ⟨hk, e0, rfl, h1, h.symm⟩

theorem concatMap_congr {α β : Type} (f g : α → List β) :
    ∀ l : List α, (∀ a ∈ l, f a = g a) → concatMap f l = concatMap g l := by
  intro l
  induction l with
  | nil => intro _; rfl
  | cons x xs ih =>
    intro h
    simp only [concatMap, h x (by simp), ih fun a ha => h a (by simp [ha])]

/-- C1: for every event name and ordered handler list subscribed to it,
`Publish` invokes the handlers sequentially in subscription order; with no
subscribers it returns nil having invoked nothing; when every handler
returns nil it invokes all of them once, in order, and returns nil; and
when the first failing handler sits at index `k` it invokes exactly the
handlers `0..k` in order, returns an error wrapping that handler's error
under a message naming the event, and never invokes a handler after `k`. -/
theorem publish_spec (bus : EventBus) (eventName : String)
    (data : List (String × String)) :
    (bus.handlersFor eventName = [] →
      bus.Publish eventName data = ([], none)) ∧
    ((∀ f ∈ bus.handlersFor eventName, f ⟨eventName, data⟩ = none) →
      bus.Publish eventName data =
        (List.range' 0 (bus.handlersFor eventName).length, none)) ∧
    (∀ (k : Nat) (err : GoErr) (hk : k < (bus.handlersFor eventName).length),
      (∀ j (hj : j < k), (bus.handlersFor eventName).get ⟨j, lt_trans hj hk⟩
        ⟨eventName, data⟩ = none) →
      (bus.handlersFor eventName).get ⟨k, hk⟩ ⟨eventName, data⟩ = some err →
      bus.Publish eventName data =
        (List.range' 0 (k + 1),
         some (.wrap ("event handler error for " ++ eventName) err))) := by
  refine ⟨?_, ?_, ?_⟩
  · intro h
    simp [EventBus.Publish, h, publishFrom]
  · intro h
    exact publishFrom_all_ok _ _ h 0
  · intro k err hk hbefore hatk
    exact publishFrom_first_err _ _ k err hk hbefore hatk 0

def h1w : EventHandler := fun _ => none

def h2w : EventHandler := fun _ => some (.base "h2 failed")

def h3w : EventHandler := fun _ => none

def demoBus : EventBus := [("evt", h1w), ("evt", h2w), ("evt", h3w)]

theorem publish_spec_witness :
    EventBus.Publish demoBus "evt" [] =
      (List.range' 0 2,
       some (.wrap "event handler error for evt" (.base "h2 failed"))) ∧
    EventBus.Publish demoBus "nobody" [] = ([], none) := by
  constructor
  · exact (publish_spec demoBus "evt" []).2.2 1 (.base "h2 failed")
      (by decide)
      (by
        intro j hj
        have : j = 0 := Nat.lt_one_iff.mp hj
        subst this
        rfl)
      rfl
  · exact (publish_spec demoBus "nobody" []).1 rfl

/-- C9: on the spec-modelled Container, registering twice under one name
and reading it back yields the second value (last `Register` wins, no
error condition), and `Get` on a name no entry carries returns the absent
flag. -/
theorem container_register_get {α : Type} (c : Container α) (n : String)
    (v1 v2 : α) :
    Container.Get (Container.Register (Container.Register c n v1) n v2) n =
      some v2 ∧
    (∀ m, (∀ kv ∈ c, kv.1 ≠ m) → Container.Get c m = none) := by
  constructor
  · exact assocLookup_assocSet_self _ n v2
  · intro m hm
    exact assocLookup_none_of_no_key c m hm

theorem container_register_get_witness :
    Container.Get (Container.Register (Container.Register
      (Container.empty : Container Nat) "x" 1) "x" 2) "x" = some 2 ∧
    Container.Get ([("a", 5)] : Container Nat) "zz" = none :=
  ⟨(container_register_get (Container.empty : Container Nat) "x" 1 2).1,
   (container_register_get ([("a", 5)] : Container Nat) "zz" 0 0).2 "zz"
     (by decide)⟩

/-- C10: the base plugin's `Initialize`, `Start` and `Stop` always return
nil and unconditionally move the state to Initialized / Running / Stopped
respectively, whatever the prior state — in particular `Stop` on a
still-Uninitialized base plugin succeeds and leaves it Stopped. -/
theorem basePlugin_lifecycle {α : Type} (p : BasePlugin) (c : Container α)
    (config : Config) :
    BasePlugin.baseInit p c config = ({ p with state := .inited }, none) ∧
    BasePlugin.baseStart p = ({ p with state := .running }, none) ∧
    BasePlugin.baseStop p = ({ p with state := .stopped }, none) ∧
    BasePlugin.baseStop { metadata := p.metadata, state := .uninit } =
      ({ metadata := p.metadata, state := .stopped }, none) :=
  ⟨rfl, rfl, rfl, rfl⟩

/-- C5: `RegisterPlugin` errs exactly when some declared dependency name
is absent from the registry at the moment of the call; on success it
stores the plugin under its metadata name, overwriting any prior entry
with that name and leaving every other name unchanged. -/
theorem registerPlugin_spec (reg : Registry) (p : Plugin) :
    ((∃ e, registerPlugin reg p = .error e) ↔
      ∃ d ∈ p.metadata.dependencies, assocLookup reg d = none) ∧
    ((∀ d ∈ p.metadata.dependencies, (assocLookup reg d).isSome) →
      registerPlugin reg p = .ok (assocSet reg p.metadata.name p)) ∧
    (∀ reg', registerPlugin reg p = .ok reg' →
      assocLookup reg' p.metadata.name = some p ∧
      ∀ k, k ≠ p.metadata.name → assocLookup reg' k = assocLookup reg k) := by
  refine ⟨⟨?_, ?_⟩, ?_, ?_⟩
  · rintro ⟨e, he⟩
    unfold registerPlugin at he
    rcases hf : findMissingDep reg p.metadata.dependencies with _ | d
    · simp [hf] at he
    · obtain ⟨hd1, hd2⟩ := findMissingDep_some reg _ d hf
      exact ⟨d, hd1, hd2⟩
  · rintro ⟨d, hd1, hd2⟩
    rcases hf : findMissingDep reg p.metadata.dependencies with _ | d0
    · have := (findMissingDep_none_iff reg _).mp hf d hd1
      rw [hd2] at this
      simp at this
    · exact ⟨.base ("dependency " ++ d0 ++ " not found for plugin " ++
        p.metadata.name), by simp [registerPlugin, hf]⟩
  · intro h
    have hf : findMissingDep reg p.metadata.dependencies = none :=
      (findMissingDep_none_iff reg _).mpr h
    simp [registerPlugin, hf]
  · intro reg' h
    unfold registerPlugin at h
    rcases hf : findMissingDep reg p.metadata.dependencies with _ | d
    · simp only [hf] at h
      have hr : assocSet reg p.metadata.name p = reg' := by
        simpa using h
      subst hr
      exact ⟨assocLookup_assocSet_self reg _ p,
        fun k hk => assocLookup_assocSet_ne reg _ k p hk⟩
    · simp [hf] at h

def pA0 : Plugin := { metadata := { name := "a" } }

def pB0 : Plugin := { metadata := { name := "b", dependencies := ["a"] } }

theorem registerPlugin_spec_witness :
    (∃ e, registerPlugin [] pB0 = .error e) ∧
    registerPlugin [] pA0 = .ok [("a", pA0)] ∧
    registerPlugin [("a", pA0)] pB0 = .ok [("a", pA0), ("b", pB0)] := by
  refine ⟨?_, ?_, ?_⟩
  · exact (registerPlugin_spec [] pB0).1.mpr ⟨"a", by decide, rfl⟩
  · exact (registerPlugin_spec [] pA0).2.1 (by decide)
  · exact (registerPlugin_spec [("a", pA0)] pB0).2.1 (by decide)

/-- C6: `HotReloadPlugin` returns the not-found error for an unregistered
name; returns the error whose message is
`plugin <name> does not support hot reload` when the registered plugin
lacks `HotReloadable` or its `CanHotReload()` is false; and otherwise
returns `OnHotReload(newConfig)`'s result unchanged. -/
theorem hotReloadPlugin_spec (reg : Registry) (name : String) (cfg : Config) :
    (assocLookup reg name = none →
      hotReloadPlugin reg name cfg =
        some (.base ("plugin " ++ name ++ " not found"))) ∧
    (∀ p, assocLookup reg name = some p →
      (p.hotReloadable = none ∨ ∃ f, p.hotReloadable = some (false, f)) →
      hotReloadPlugin reg name cfg =
        some (.base ("plugin " ++ name ++ " does not support hot reload"))) ∧
    (∀ p f, assocLookup reg name = some p →
      p.hotReloadable = some (true, f) →
      hotReloadPlugin reg name cfg = f cfg) := by
  refine ⟨?_, ?_, ?_⟩
  · intro h
    simp [hotReloadPlugin, h]
  · intro p hp hcase
    rcases hcase with h | ⟨f, h⟩ <;> simp [hotReloadPlugin, hp, h]
  · intro p f hp hf
    simp [hotReloadPlugin, hp, hf]

def pNoHR : Plugin := { metadata := { name := "n" } }

def pYesHR : Plugin :=
  { metadata := { name := "y" }, hotReloadable := some (true, fun _ => none) }

theorem hotReloadPlugin_spec_witness :
    hotReloadPlugin [("n", pNoHR), ("y", pYesHR)] "missing" [] =
      some (.base "plugin missing not found") ∧
    hotReloadPlugin [("n", pNoHR), ("y", pYesHR)] "n" [] =
      some (.base "plugin n does not support hot reload") ∧
    hotReloadPlugin [("n", pNoHR), ("y", pYesHR)] "y" [] = none := by
  refine ⟨?_, ?_, ?_⟩
  · exact (hotReloadPlugin_spec [("n", pNoHR), ("y", pYesHR)] "missing" []).1
      rfl
  · exact (hotReloadPlugin_spec [("n", pNoHR), ("y", pYesHR)] "n" []).2.1
      pNoHR rfl (Or.inl rfl)
  · exact (hotReloadPlugin_spec [("n", pNoHR), ("y", pYesHR)] "y" []).2.2
      pYesHR (fun _ => none) rfl rfl

def pHigh : Plugin := { metadata := { name := "high", priority := 100 } }

def pDep : Plugin := { metadata := { name := "dep", priority := 50 } }

def pDependent : Plugin :=
  { metadata := { name := "dependent", dependencies := ["dep"],
                  priority := 50 } }

theorem pluginLess_false_dep (a b : Plugin)
    (h : pluginLess b a = false)
    (hpri : a.metadata.priority = b.metadata.priority) :
    a.metadata.dependencies.contains b.metadata.name = false := by
  unfold pluginLess pluginMetaLess at h
  rw [if_neg (by simp [hpri])] at h
  exact h

/-- C2 (amended): for the three-plugin scenario — priorities 100, 50, 50
with the second priority-50 plugin depending on the first — every
extraction order of the registry sorts to: the priority-100 plugin, then
the depended-upon plugin, then its dependent.  In general the output is
ordered by descending numeric priority (pairwise), and — provided the
comparator is asymmetric on the snapshot, as it is whenever equal-priority
plugins have no circular declarations — no plugin is *immediately*
followed by an equal-priority plugin it declares as a dependency.  The
dependency-before-dependent guarantee is only this local, adjacent-pair
one; it does not hold between non-adjacent equal-priority plugins (see the
counterexample). -/
theorem getSortedPlugins_spec :
    (∀ l : List Plugin,
      (l = [pHigh, pDep, pDependent] ∨ l = [pHigh, pDependent, pDep] ∨
       l = [pDep, pHigh, pDependent] ∨ l = [pDep, pDependent, pHigh] ∨
       l = [pDependent, pHigh, pDep] ∨ l = [pDependent, pDep, pHigh]) →
      getSortedPlugins l = [pHigh, pDep, pDependent]) ∧
    (∀ l : List Plugin, (getSortedPlugins l).Pairwise
      (fun a b => b.metadata.priority ≤ a.metadata.priority)) ∧
    (∀ l : List Plugin,
      (∀ a ∈ l, ∀ b ∈ l, pluginLess a b = true → pluginLess b a = false) →
      (getSortedPlugins l).Chain'
        (fun a b => a.metadata.priority = b.metadata.priority →
          a.metadata.dependencies.contains b.metadata.name = false)) := by
  refine ⟨?_, getSortedPlugins_pri_pairwise, ?_⟩
  · rintro l (h | h | h | h | h | h) <;> subst h <;> rfl
  · intro l hasym
    have hch := @goSortBy_chain Plugin pluginLess l hasym
    exact hch.imp fun {a b} h hpri => pluginLess_false_dep a b h hpri

theorem getSortedPlugins_spec_witness :
    getSortedPlugins [pDependent, pDep, pHigh] =
      [pHigh, pDep, pDependent] ∧
    (getSortedPlugins [pDependent, pDep, pHigh]).Pairwise
      (fun a b => b.metadata.priority ≤ a.metadata.priority) ∧
    (getSortedPlugins [pDependent, pDep, pHigh]).Chain'
      (fun a b => a.metadata.priority = b.metadata.priority →
        a.metadata.dependencies.contains b.metadata.name = false) :=
  ⟨getSortedPlugins_spec.1 [pDependent, pDep, pHigh]
      (Or.inr (Or.inr (Or.inr (Or.inr (Or.inr rfl))))),
   getSortedPlugins_spec.2.1 [pDependent, pDep, pHigh],
   getSortedPlugins_spec.2.2 [pDependent, pDep, pHigh] (by decide)⟩

def pX : Plugin :=
  { metadata := { name := "x", dependencies := ["b"], priority := 50 } }

def pC : Plugin := { metadata := { name := "c", priority := 50 } }

def pB2 : Plugin := { metadata := { name := "b", priority := 50 } }

/-- C2 counterexample: three equal-priority plugins where `x` declares a
dependency on `b` but an unrelated plugin `c` sits between them in the
extraction order.  `getSortedPlugins` leaves the order `[x, c, b]`
unchanged, so the declared dependency `b` is placed *after* its dependent
`x`, refuting the claim that among equal-priority plugins a declared
dependency is always placed before its dependent. -/
theorem getSortedPlugins_dep_counterexample :
    getSortedPlugins [pX, pC, pB2] = [pX, pC, pB2] ∧
    pX.metadata.dependencies.contains pB2.metadata.name = true ∧
    pX.metadata.priority = pB2.metadata.priority :=
  ⟨rfl, rfl, rfl⟩

def pU : Plugin := { metadata := { name := "u", priority := 50 } }

def pV : Plugin := { metadata := { name := "v", priority := 50 } }

/-- C8 (amended): `getSortedPlugins` is a pure function of the extracted
slice, and for two extraction orders of the same snapshot (permutations of
each other) the outputs are permutations of the snapshot and of each other
— the returned *set* of plugins is stable.  The returned *order* is not a
function of the snapshot alone (see the counterexample): it can depend on
the map iteration order that produced the slice. -/
theorem getSortedPlugins_perm_stable (l1 l2 : List Plugin)
    (h : l1.Perm l2) :
    (getSortedPlugins l1).Perm l1 ∧
    (getSortedPlugins l1).Perm (getSortedPlugins l2) := by
  constructor
  · exact goSortBy_perm pluginLess l1
  · exact (goSortBy_perm pluginLess l1).trans
      (h.trans (goSortBy_perm pluginLess l2).symm)

theorem getSortedPlugins_perm_stable_witness :
    (getSortedPlugins [pU, pV]).Perm [pU, pV] ∧
    (getSortedPlugins [pU, pV]).Perm (getSortedPlugins [pV, pU]) :=
  getSortedPlugins_perm_stable [pU, pV] [pV, pU] (List.Perm.swap pV pU [])

/-- C8 counterexample: two equal-priority, dependency-free plugins.  The
two extraction orders of the same two-plugin snapshot are permutations of
each other, yet `getSortedPlugins` returns them unchanged, i.e. in two
different orders — same snapshot, different computed order. -/
theorem getSortedPlugins_order_counterexample :
    ([pU, pV].Perm [pV, pU]) ∧
    getSortedPlugins [pU, pV] ≠ getSortedPlugins [pV, pU] := by
  refine ⟨List.Perm.swap pV pU [], ?_⟩
  intro h
  exact absurd (congrArg (List.map fun p => p.metadata.name) h) (by decide)

theorem initStep_validate_err (configs : List (String × Config)) (p : Plugin)
    (vc : Config → Option GoErr) (e : GoErr) (hc : p.configurable = some vc)
    (hv : vc (resolveConfig configs p.metadata.name) = some e) :
    initStep configs p =
      ([Action.validate p.metadata.name],
       some (.wrap ("config validation failed for plugin " ++
         p.metadata.name) e)) := by
  simp [initStep, validatePart, seqPR, hc, hv]

/-- C4: `InitializePlugins` iterates the sorted order; per plugin it
resolves the config (empty when absent), then runs `ValidateConfig` (if
Configurable), `OnBeforeInit` (if hooked), `Initialize`, service
registration, event subscription, `OnAfterInit` (if hooked), in that
sequence; a plugin whose `ValidateConfig` fails never has its `Initialize`
called and the call errs; and any error at any step aborts the call at
exactly that plugin — the trace is the full traces of the preceding
plugins plus the failing plugin's partial trace, nothing of any later
plugin, and nothing is rolled back. -/
theorem initPlugins_spec (l : List Plugin) (configs : List (String × Config))
    (hnd : ((getSortedPlugins l).map fun p => p.metadata.name).Nodup) :
    ((∀ p ∈ getSortedPlugins l, initOkCond configs p) →
      initPlugins l configs =
        (concatMap fullInitTrace (getSortedPlugins l), none)) ∧
    (∀ p, (initStep configs p).2 = none ↔ initOkCond configs p) ∧
    (∀ n, assocLookup configs n = none → resolveConfig configs n = []) ∧
    (∀ p ∈ getSortedPlugins l, ∀ vc, p.configurable = some vc →
      ∀ e, vc (resolveConfig configs p.metadata.name) = some e →
      (initPlugins l configs).2.isSome ∧
      Action.initAct p.metadata.name ∉ (initPlugins l configs).1) ∧
    (∀ e, (initPlugins l configs).2 = some e →
      ∃ pre q post, getSortedPlugins l = pre ++ q :: post ∧
        (∀ r ∈ pre, initOkCond configs r) ∧
        (initStep configs q).2 = some e ∧
        (initPlugins l configs).1 =
          concatMap fullInitTrace pre ++ (initStep configs q).1 ∧
        ∀ r ∈ post, ∀ a ∈ (initPlugins l configs).1,
          a.plug ≠ r.metadata.name) := by
  have heq : initPlugins l configs =
      runPhase (initStep configs) (getSortedPlugins l) := rfl
  refine ⟨?_, initStep_none_iff configs, ?_, ?_, ?_⟩
  · intro h
    have hsteps : ∀ p ∈ getSortedPlugins l, (initStep configs p).2 = none :=
      fun p hp => (initStep_none_iff configs p).mpr (h p hp)
    have htr : ∀ p ∈ getSortedPlugins l,
        (initStep configs p).1 = fullInitTrace p := by
      intro p hp
      rw [initStep_of_ok configs p (h p hp)]
    rw [heq, runPhase_of_ok _ _ hsteps,
      concatMap_congr _ _ _ htr]
  · intro n h
    simp [resolveConfig, h]
  · intro p hp vc hvc e he
    have hperr : (initStep configs p).2 =
        some (.wrap ("config validation failed for plugin " ++
          p.metadata.name) e) := by
      rw [initStep_validate_err configs p vc e hvc he]
    rcases hres : (initPlugins l configs).2 with _ | e'
    · exfalso
      rw [heq] at hres
      have := (runPhase_none_iff (initStep configs) _).mp hres p hp
      rw [hperr] at this
      exact Option.noConfusion this
    · refine ⟨by simp [hres], ?_⟩
      rw [heq] at hres
      obtain ⟨pre, q, post, hsplit, hpre, hq, htrace, hpost⟩ :=
        runPhase_err_names (initStep configs) (initStep_plug configs)
          (getSortedPlugins l) hnd e' hres
      have hnd2 : ((pre.map fun r => r.metadata.name) ++
          (q.metadata.name :: (post.map fun r => r.metadata.name))).Nodup := by
        have hmapeq : (getSortedPlugins l).map (fun r => r.metadata.name) =
            (pre.map fun r => r.metadata.name) ++
            (q.metadata.name :: (post.map fun r => r.metadata.name)) := by
          simp [hsplit]
        rw [hmapeq] at hnd
        exact hnd
      have hdisj := List.disjoint_of_nodup_append hnd2
      intro ha
      have hp' : p ∈ pre ∨ p = q ∨ p ∈ post := by
        rw [hsplit] at hp
        simpa using hp
      rcases hp' with hpre_p | hq_p | hpost_p
      · have := hpre p hpre_p
        rw [hperr] at this
        exact Option.noConfusion this
      · subst hq_p
        rw [heq, htrace] at ha
        rcases List.mem_append.mp ha with h1 | h1
        · obtain ⟨r, hr, har⟩ := (concatMap_mem _ pre _).mp h1
          have hrn : (Action.initAct p.metadata.name).plug =
              r.metadata.name := initStep_plug configs r _ har
          have hrn' : r.metadata.name = p.metadata.name := by
            simpa [Action.plug] using hrn.symm
          exact hdisj (List.mem_map.mpr ⟨r, hr, rfl⟩)
            (by rw [hrn']; exact List.mem_cons_self _ _)
        · rw [initStep_validate_err configs p vc e hvc he] at h1
          simp at h1
      · have := hpost p hpost_p (Action.initAct p.metadata.name)
          (by rw [heq] at ha; exact ha)
        exact this rfl
  · intro e hres
    rw [heq] at hres
    obtain ⟨pre, q, post, hsplit, hpre, hq, htrace, hpost⟩ :=
      runPhase_err_names (initStep configs) (initStep_plug configs)
        (getSortedPlugins l) hnd e hres
    have hpre' : ∀ r ∈ pre, initOkCond configs r :=
      fun r hr => (initStep_none_iff configs r).mp (hpre r hr)
    have htr' : concatMap (fun r => (initStep configs r).1) pre =
        concatMap fullInitTrace pre := by
      apply concatMap_congr
      intro r hr
      rw [initStep_of_ok configs r (hpre' r hr)]
    refine ⟨pre, q, post, hsplit, hpre', hq, ?_, ?_⟩
    · rw [heq, htrace, htr']
    · intro r hr a ha
      exact hpost r hr a (by rw [heq] at ha; exact ha)

def pGood : Plugin :=
  { metadata := { name := "good", priority := 90 },
    services := some [("svc", "inst")] }

def pBadV : Plugin :=
  { metadata := { name := "badv", priority := 10 },
    configurable := some (fun _ => some (.base "invalid")) }

theorem initPlugins_spec_witness :
    (initPlugins [pBadV, pGood] []).2.isSome ∧
    Action.initAct "badv" ∉ (initPlugins [pBadV, pGood] []).1 :=
  (initPlugins_spec [pBadV, pGood] [] (by decide)).2.2.2.1 pBadV
    (List.Mem.tail pGood (List.Mem.head []))
    (fun _ => some (.base "invalid")) rfl (.base "invalid") rfl

/-- C7 (amended): inside `StartPlugins`, errors from `OnBeforeStart`,
`Start` and `OnAfterStart` abort the whole call at that plugin and are
returned wrapped with the plugin's name and phase; the error a
`plugin.started` event handler returns during publication, however, is
discarded by the code — it never makes a start step fail, never aborts the
call and is not returned (see the counterexample). -/
theorem startPlugins_spec (l : List Plugin) (bus : EventBus)
    (hnd : ((getSortedPlugins l).map fun p => p.metadata.name).Nodup) :
    ((∀ p ∈ getSortedPlugins l, startOkCond p) →
      startPlugins l bus =
        (concatMap (fullStartTrace bus) (getSortedPlugins l), none)) ∧
    (∀ p, (startStep bus p).2 = none ↔ startOkCond p) ∧
    (∀ p e, (startStep bus p).2 = some e →
      (∃ hk e0, p.hooks = some hk ∧ hk.onBeforeStart = some e0 ∧
        e = .wrap ("OnBeforeStart failed for plugin " ++ p.metadata.name) e0) ∨
      (∃ e0, p.runStart = some e0 ∧
        e = .wrap ("start failed for plugin " ++ p.metadata.name) e0) ∨
      (∃ hk e0, p.hooks = some hk ∧ hk.onAfterStart = some e0 ∧
        e = .wrap ("OnAfterStart failed for plugin " ++ p.metadata.name) e0)) ∧
    (∀ e, (startPlugins l bus).2 = some e →
      ∃ pre q post, getSortedPlugins l = pre ++ q :: post ∧
        (∀ r ∈ pre, startOkCond r) ∧
        (startStep bus q).2 = some e ∧
        (startPlugins l bus).1 =
          concatMap (fullStartTrace bus) pre ++ (startStep bus q).1 ∧
        ∀ r ∈ post, ∀ a ∈ (startPlugins l bus).1,
          a.plug ≠ r.metadata.name) := by
  have heq : startPlugins l bus =
      runPhase (startStep bus) (getSortedPlugins l) := rfl
  refine ⟨?_, startStep_none_iff bus, startStep_err_shape bus, ?_⟩
  · intro h
    have hsteps : ∀ p ∈ getSortedPlugins l, (startStep bus p).2 = none :=
      fun p hp => (startStep_none_iff bus p).mpr (h p hp)
    have htr : ∀ p ∈ getSortedPlugins l,
        (startStep bus p).1 = fullStartTrace bus p := by
      intro p hp
      rw [startStep_of_ok bus p (h p hp)]
    rw [heq, runPhase_of_ok _ _ hsteps, concatMap_congr _ _ _ htr]
  · intro e hres
    rw [heq] at hres
    obtain ⟨pre, q, post, hsplit, hpre, hq, htrace, hpost⟩ :=
      runPhase_err_names (startStep bus) (startStep_plug bus)
        (getSortedPlugins l) hnd e hres
    have hpre' : ∀ r ∈ pre, startOkCond r :=
      fun r hr => (startStep_none_iff bus r).mp (hpre r hr)
    have htr' : concatMap (fun r => (startStep bus r).1) pre =
        concatMap (fullStartTrace bus) pre := by
      apply concatMap_congr
      intro r hr
      rw [startStep_of_ok bus r (hpre' r hr)]
    refine ⟨pre, q, post, hsplit, hpre', hq, ?_, ?_⟩
    · rw [heq, htrace, htr']
    · intro r hr a ha
      exact hpost r hr a (by rw [heq] at ha; exact ha)

def pP : Plugin := { metadata := { name := "p", priority := 100 } }

def pQ : Plugin := { metadata := { name := "q", priority := 50 } }

theorem startPlugins_spec_witness :
    startPlugins [pP, pQ] [] =
      (concatMap (fullStartTrace []) (getSortedPlugins [pP, pQ]), none) :=
  (startPlugins_spec [pP, pQ] [] (by decide)).1 (by
    intro p hp
    have h : p = pP ∨ p = pQ := by
      simpa [show getSortedPlugins [pP, pQ] = [pP, pQ] from rfl] using hp
    rcases h with h | h <;> subst h <;>
      exact ⟨fun hk hh => Option.noConfusion hh, rfl⟩)

def pOkStart : Plugin := { metadata := { name := "ok" } }

def busBoom : EventBus := [("plugin.started", fun _ => some (.base "boom"))]

/-- C7 counterexample: a `plugin.started` handler that errs.  Publishing
the event for the started plugin does return an error, yet `StartPlugins`
completes with a nil error — the handler error neither aborts the call nor
reaches the caller, refuting the claim that every error arising inside
`StartPlugins`, including event handler errors from the `plugin.started`
publication, aborts the call and is returned. -/
theorem startPlugins_publish_counterexample :
    (EventBus.Publish busBoom "plugin.started" [("plugin", "ok")]).2 =
      some (.wrap "event handler error for plugin.started" (.base "boom")) ∧
    startPlugins [pOkStart] busBoom =
      ([Action.startAct "ok",
        Action.pubStarted "ok" (some (.wrap
          "event handler error for plugin.started" (.base "boom")))],
       none) :=
  ⟨rfl, rfl⟩

theorem concatMap_append {α β : Type} (f : α → List β) :
    ∀ l1 l2 : List α,
    concatMap f (l1 ++ l2) = concatMap f l1 ++ concatMap f l2 := by
  intro l1 l2
  induction l1 with
  | nil => rfl
  | cons x xs ih => simp [concatMap, ih]

theorem map_concatMap {α β γ : Type} (g : β → γ) (f : α → List β) :
    ∀ l : List α,
    (concatMap f l).map g = concatMap (fun a => (f a).map g) l := by
  intro l
  induction l with
  | nil => rfl
  | cons x xs ih => simp [concatMap, ih]

theorem concatMap_reverse {α β : Type} (f : α → List β) :
    ∀ l : List α,
    (concatMap f l).reverse = concatMap (fun a => (f a).reverse) l.reverse := by
  intro l
  induction l with
  | nil => rfl
  | cons x xs ih =>
    simp only [concatMap, List.reverse_append, List.reverse_cons, ih,
      concatMap_append]
    simp [concatMap]

/-- Per plugin, the reversed name sequence of its `StartPlugins` actions is
the name sequence of its `StopPlugins` actions: both blocks are two (or,
with hooks, four) actions carrying the plugin's own name, whatever either
bus holds. -/
theorem stopTrace_names_eq_rev_startTrace (bus1 bus2 : EventBus)
    (p : Plugin) :
    ((fullStartTrace bus1 p).map Action.plug).reverse =
      (fullStopTrace bus2 p).map Action.plug := by
  rcases h : p.hooks with _ | hk <;>
    simp [fullStartTrace, fullStopTrace, h, Action.plug]

/-- C3 (amended): `StopPlugins` sorts its *own* fresh extraction of the
registry and iterates that sorted slice in reverse index order; per
visited plugin it runs `OnBeforeStop` (if hooked), `Stop`, `OnAfterStop`
(if hooked) and then publishes `plugin.stopped`; an error from
`OnBeforeStop`, `Stop` or `OnAfterStop` aborts the whole call at that
plugin, so plugins later in its own reverse iteration (earlier in its own
sorted order) are never stopped — but an error a `plugin.stopped` handler
returns during publication is discarded and does not abort the call.
When `StopPlugins` runs on the same extraction slice `StartPlugins` used
(all steps succeeding), its visit order is the exact reverse of
`StartPlugins`' visit order — the last conjunct; because each call
re-extracts the registry map in nondeterministic order, that exact
reversal is *not* guaranteed across two calls whose extractions sort
differently (see the counterexample). -/
theorem stopPlugins_spec (l : List Plugin) (bus : EventBus)
    (hnd : ((getSortedPlugins l).map fun p => p.metadata.name).Nodup) :
    ((∀ p ∈ (getSortedPlugins l).reverse, stopOkCond p) →
      stopPlugins l bus =
        (concatMap (fullStopTrace bus) (getSortedPlugins l).reverse, none)) ∧
    (∀ p, (stopStep bus p).2 = none ↔ stopOkCond p) ∧
    (∀ e, (stopPlugins l bus).2 = some e →
      ∃ pre q post, (getSortedPlugins l).reverse = pre ++ q :: post ∧
        (∀ r ∈ pre, stopOkCond r) ∧
        (stopStep bus q).2 = some e ∧
        (stopPlugins l bus).1 =
          concatMap (fullStopTrace bus) pre ++ (stopStep bus q).1 ∧
        ∀ r ∈ post, ∀ a ∈ (stopPlugins l bus).1,
          a.plug ≠ r.metadata.name) ∧
    (∀ bus1 : EventBus,
      (∀ p ∈ getSortedPlugins l, startOkCond p) →
      (∀ p ∈ (getSortedPlugins l).reverse, stopOkCond p) →
      (stopPlugins l bus).1.map Action.plug =
        ((startPlugins l bus1).1.map Action.plug).reverse) := by
  have heq : stopPlugins l bus =
      runPhase (stopStep bus) (getSortedPlugins l).reverse := rfl
  have hnd' : ((getSortedPlugins l).reverse.map
      fun p => p.metadata.name).Nodup := by
    rw [List.map_reverse]
    exact List.nodup_reverse.mpr hnd
  have hstoptr : (∀ p ∈ (getSortedPlugins l).reverse, stopOkCond p) →
      stopPlugins l bus =
        (concatMap (fullStopTrace bus) (getSortedPlugins l).reverse,
         none) := by
    intro h
    have hsteps : ∀ p ∈ (getSortedPlugins l).reverse,
        (stopStep bus p).2 = none :=
      fun p hp => (stopStep_none_iff bus p).mpr (h p hp)
    have htr : ∀ p ∈ (getSortedPlugins l).reverse,
        (stopStep bus p).1 = fullStopTrace bus p := by
      intro p hp
      rw [stopStep_of_ok bus p (h p hp)]
    rw [heq, runPhase_of_ok _ _ hsteps, concatMap_congr _ _ _ htr]
  refine ⟨hstoptr, stopStep_none_iff bus, ?_, ?_⟩
  · intro e hres
    rw [heq] at hres
    obtain ⟨pre, q, post, hsplit, hpre, hq, htrace, hpost⟩ :=
      runPhase_err_names (stopStep bus) (stopStep_plug bus)
        (getSortedPlugins l).reverse hnd' e hres
    have hpre' : ∀ r ∈ pre, stopOkCond r :=
      fun r hr => (stopStep_none_iff bus r).mp (hpre r hr)
    have htr' : concatMap (fun r => (stopStep bus r).1) pre =
        concatMap (fullStopTrace bus) pre := by
      apply concatMap_congr
      intro r hr
      rw [stopStep_of_ok bus r (hpre' r hr)]
    refine ⟨pre, q, post, hsplit, hpre', hq, ?_, ?_⟩
    · rw [heq, htrace, htr']
    · intro r hr a ha
      exact hpost r hr a (by rw [heq] at ha; exact ha)
  · intro bus1 hstart hstop
    have hstart_tr : startPlugins l bus1 =
        (concatMap (fullStartTrace bus1) (getSortedPlugins l), none) := by
      have hsteps : ∀ p ∈ getSortedPlugins l, (startStep bus1 p).2 = none :=
        fun p hp => (startStep_none_iff bus1 p).mpr (hstart p hp)
      have htr : ∀ p ∈ getSortedPlugins l,
          (startStep bus1 p).1 = fullStartTrace bus1 p := by
        intro p hp
        rw [startStep_of_ok bus1 p (hstart p hp)]
      rw [show startPlugins l bus1 =
          runPhase (startStep bus1) (getSortedPlugins l) from rfl,
        runPhase_of_ok _ _ hsteps, concatMap_congr _ _ _ htr]
    rw [hstoptr hstop, hstart_tr]
    rw [map_concatMap, map_concatMap, concatMap_reverse]
    apply concatMap_congr
    intro p hp
    exact (stopTrace_names_eq_rev_startTrace bus1 bus p).symm

theorem stopPlugins_spec_witness :
    stopPlugins [pP, pQ] [] =
      (concatMap (fullStopTrace []) (getSortedPlugins [pP, pQ]).reverse,
       none) ∧
    (stopPlugins [pP, pQ] []).1.map Action.plug =
      ((startPlugins [pP, pQ] []).1.map Action.plug).reverse := by
  have hstopok : ∀ p ∈ (getSortedPlugins [pP, pQ]).reverse, stopOkCond p := by
    intro p hp
    have h : p = pQ ∨ p = pP := by
      simpa [show (getSortedPlugins [pP, pQ]).reverse = [pQ, pP] from rfl]
        using hp
    rcases h with h | h <;> subst h <;>
      exact ⟨fun hk hh => Option.noConfusion hh, rfl⟩
  constructor
  · exact (stopPlugins_spec [pP, pQ] [] (by decide)).1 hstopok
  · refine (stopPlugins_spec [pP, pQ] [] (by decide)).2.2.2 [] ?_ hstopok
    intro p hp
    have h : p = pP ∨ p = pQ := by
      simpa [show getSortedPlugins [pP, pQ] = [pP, pQ] from rfl] using hp
    rcases h with h | h <;> subst h <;>
      exact ⟨fun hk hh => Option.noConfusion hh, rfl⟩

def busStopBoom : EventBus :=
  [("plugin.stopped", fun _ => some (.base "boom"))]

/-- C3 counterexample, refuting two parts of the claim as stated.
First, the abort clause: a `plugin.stopped` handler errs, so publishing
`plugin.stopped` for the first-stopped plugin `q` returns an error, yet
`StopPlugins` goes on to stop the earlier-started plugin `p` and returns a
nil error — an error from the publication step (one of the listed
per-plugin steps) does not abort the call.  Second, the exact-reverse
clause: `StartPlugins` and `StopPlugins` each re-extract the registry map,
whose iteration order is nondeterministic; with the same two-plugin
equal-priority snapshot extracted once as `[u, v]` (start) and once as
`[v, u]` (stop), `StartPlugins` visits u then v while `StopPlugins` also
visits u then v — not the exact reverse of the order `StartPlugins`
used. -/
theorem stopPlugins_publish_counterexample :
    (EventBus.Publish busStopBoom "plugin.stopped" [("plugin", "q")]).2 =
      some (.wrap "event handler error for plugin.stopped" (.base "boom")) ∧
    stopPlugins [pP, pQ] busStopBoom =
      ([Action.stopAct "q",
        Action.pubStopped "q" (some (.wrap
          "event handler error for plugin.stopped" (.base "boom"))),
        Action.stopAct "p",
        Action.pubStopped "p" (some (.wrap
          "event handler error for plugin.stopped" (.base "boom")))],
       none) ∧
    Action.stopAct "p" ∈ (stopPlugins [pP, pQ] busStopBoom).1 ∧
    ([pU, pV].Perm [pV, pU]) ∧
    startPlugins [pU, pV] [] =
      ([Action.startAct "u", Action.pubStarted "u" none,
        Action.startAct "v", Action.pubStarted "v" none], none) ∧
    stopPlugins [pV, pU] [] =
      ([Action.stopAct "u", Action.pubStopped "u" none,
        Action.stopAct "v", Action.pubStopped "v" none], none) :=
  ⟨rfl, rfl, by decide, List.Perm.swap pV pU [], rfl, rfl⟩

end Gorgo
